import Mathlib

/-!
Verification development for the obfs4 obfuscated-transport implementation.

The Go sources are shallowly embedded: bytes are `Nat` values < 256, byte
strings are `List Nat`, machine integers are `Nat`/`Int` with explicit
`% 2^w` where the code relies on wraparound, fallible operations return
`Except`/`Option`, and stateful objects (frame encoder/decoder, the DRBG,
the replay filter) are explicit state records threaded through functions.

External primitives that the sources treat as black boxes (SipHash-2-4,
NaCl secretbox, HMAC-SHA256, the OS CSPRNG, Go's `math/rand` scheduling
of a custom `Source`) are handled as follows:
  * SipHash-2-4 is implemented concretely, following the reference
    algorithm used by the `github.com/dchest/siphash` dependency
    (little-endian key/word loading, 2 compression and 4 finalization
    rounds, length byte in the final word).
  * NaCl secretbox is modelled as an executable authenticated-encryption
    scheme with the same interface contract: 16 bytes of tag overhead,
    `open (seal m) = some m`, failure on tag mismatch.  The internal
    XSalsa20/Poly1305 mathematics is not modelled.
  * HMAC-SHA256 keyed with the server identity key appears as an abstract
    function parameter `mac` in handshake definitions.
  * `float64` values are modelled as exact rationals (`ℚ`); the division
    `float64(Int63()) / (1 << 63)` is exact in this model, so the
    resample-on-1.0 branch of Go's `Rand.Float64` never fires.
  * Calls to the cryptographic RNG (padding lengths, distribution
    sampling) become explicit parameters constrained by the documented
    range contract of `csrand.IntRange`.
-/

namespace Obfs4

/-- A byte: a natural number, meaningful values are < 256. -/
abbrev Byte := Nat

/-- Addition modulo 2^64, the Go `uint64` addition. -/
def add64 (a b : Nat) : Nat := (a + b) % 2 ^ 64

/-- Left rotation of a 64-bit word. -/
def rotl64 (x r : Nat) : Nat := ((x <<< r) ||| (x >>> (64 - r))) % 2 ^ 64

/-- Little-endian decoding of a byte list (first byte least significant). -/
def leDec (bs : List Byte) : Nat := bs.foldr (fun b acc => b + 256 * acc) 0

/-- Little-endian encoding of a 64-bit word into 8 bytes. -/
def le64enc (n : Nat) : List Byte := (List.range 8).map fun i => (n >>> (8 * i)) % 256

/-- Big-endian decoding of a byte list (first byte most significant). -/
def beDec (bs : List Byte) : Nat := bs.foldl (fun acc b => acc * 256 + b) 0

/-- Big-endian encoding of a 64-bit word into 8 bytes (`binary.BigEndian.PutUint64`). -/
def be64enc (n : Nat) : List Byte := (List.range 8).map fun i => (n >>> (8 * (7 - i))) % 256

/-- Big-endian encoding of a 16-bit word into 2 bytes (`binary.BigEndian.PutUint16`). -/
def be16enc (n : Nat) : List Byte := [(n >>> 8) % 256, n % 256]

/-- SipHash internal state: four 64-bit lanes. -/
structure Sip4 where
  v0 : Nat
  v1 : Nat
  v2 : Nat
  v3 : Nat
deriving DecidableEq

/-- One SipRound, as in the SipHash-2-4 reference implementation. -/
def sipRound (s : Sip4) : Sip4 :=
  let v0 := add64 s.v0 s.v1
  let v1 := rotl64 s.v1 13
  let v1 := v1 ^^^ v0
  let v0 := rotl64 v0 32
  let v2 := add64 s.v2 s.v3
  let v3 := rotl64 s.v3 16
  let v3 := v3 ^^^ v2
  let v0 := add64 v0 v3
  let v3 := rotl64 v3 21
  let v3 := v3 ^^^ v0
  let v2 := add64 v2 v1
  let v1 := rotl64 v1 17
  let v1 := v1 ^^^ v2
  let v2 := rotl64 v2 32
  ⟨v0, v1, v2, v3⟩

/-- Absorb one 64-bit message word: v3 ^= m, 2 rounds, v0 ^= m. -/
def sipAbsorb (s : Sip4) (m : Nat) : Sip4 :=
  let s := { s with v3 := s.v3 ^^^ m }
  let s := sipRound (sipRound s)
  { s with v0 := s.v0 ^^^ m }

/-- The full 8-byte words of a message, little-endian, in order. -/
def words8 : List Byte → List Nat
  | b0 :: b1 :: b2 :: b3 :: b4 :: b5 :: b6 :: b7 :: rest =>
      leDec [b0, b1, b2, b3, b4, b5, b6, b7] :: words8 rest
  | _ => []

/-- The trailing < 8 bytes of a message after the full words. -/
def tail8 : List Byte → List Byte
  | _ :: _ :: _ :: _ :: _ :: _ :: _ :: _ :: rest => tail8 rest
  | l => l

/-- SipHash-2-4 of a message under a key given as two 64-bit words.
Follows the reference algorithm (and the `dchest/siphash` dependency):
little-endian word loading, final word carries `len mod 256` in its top
byte, finalization xors 0xff into v2 and runs 4 rounds. -/
def sipHash24 (k0 k1 : Nat) (msg : List Byte) : Nat :=
  let s : Sip4 := ⟨k0 ^^^ 0x736f6d6570736575, k1 ^^^ 0x646f72616e646f6d,
                   k0 ^^^ 0x6c7967656e657261, k1 ^^^ 0x7465646279746573⟩
  let s := (words8 msg).foldl sipAbsorb s
  let fin := leDec (tail8 msg) + ((msg.length % 256) <<< 56)
  let s := sipAbsorb s fin
  let s := { s with v2 := s.v2 ^^^ 0xff }
  let s := sipRound (sipRound (sipRound (sipRound s)))
  ((s.v0 ^^^ s.v1) ^^^ s.v2) ^^^ s.v3

/-- First half of a 16-byte SipHash key as a 64-bit word (little-endian). -/
def sipK0 (key : List Byte) : Nat := leDec (key.take 8)

/-- Second half of a 16-byte SipHash key as a 64-bit word (little-endian). -/
def sipK1 (key : List Byte) : Nat := leDec ((key.drop 8).take 8)

/-- The 8-byte digest produced by the streaming SipHash object's `Sum`,
serialized little-endian as in the `dchest/siphash` dependency. -/
def sipDigest (key msg : List Byte) : List Byte :=
  le64enc (sipHash24 (sipK0 key) (sipK1 key) msg)

end Obfs4

/-! ## Framing (package `framing`, the obfs4 link framing and cryptography)

Embeds the frame codec of the `framing` package: constants, the nonce
counter, `Encoder.Encode` and `Decoder.Decode`.  The streaming SipHash
object used for length obfuscation is represented by its key plus the
bytes written since the last `Reset` (`sipAcc`); `Sum` is the digest of
the accumulated bytes, matching `hash.Hash` semantics. -/

namespace Obfs4

/-- `MaximumSegmentLength = 1500 - 40`. -/
def MaximumSegmentLength : Nat := 1500 - 40

/-- `lengthLength = 2`: the obfuscated length field. -/
def lengthLength : Nat := 2

/-- `secretbox.Overhead = 16`: the Poly1305 tag carried by a NaCl box. -/
def secretboxOverhead : Nat := 16

/-- `FrameOverhead = lengthLength + secretbox.Overhead`. -/
def FrameOverhead : Nat := lengthLength + secretboxOverhead

/-- `MaximumFramePayloadLength = MaximumSegmentLength - FrameOverhead`. -/
def MaximumFramePayloadLength : Nat := MaximumSegmentLength - FrameOverhead

/-- `keyLength = 32`: the NaCl SecretBox key. -/
def boxKeyLength : Nat := 32

/-- `noncePrefixLength = 16`. -/
def noncePfxLength : Nat := 16

/-- `KeyLength = keyLength + noncePrefixLength + 16 = 64` bytes of
Encoder/Decoder keying material. -/
def KeyLength : Nat := boxKeyLength + noncePfxLength + 16

/-- `maxFrameLength = MaximumSegmentLength - lengthLength`. -/
def maxFrameLength : Nat := MaximumSegmentLength - lengthLength

/-- `minFrameLength = FrameOverhead - lengthLength`. -/
def minFrameLength : Nat := FrameOverhead - lengthLength

/-- The errors of the framing layer, plus the packet-layer panic guard of
`makePacket` (modelled as an error value rather than a Go panic). -/
inductive FramingError where
  | invalidPayloadLength (n : Nat)
  | invalidFrameLength (n : Nat)
  | nonceWrapped
  | tagMismatch
  | packetLengthPanic
deriving DecidableEq

/-- Model of NaCl secretbox (external primitive, used as a black box by
the source): the tag is two SipHash digests of nonce-plus-message under
the two key halves, giving `secretboxOverhead = 16` bytes of overhead and
the authenticated-encryption contract `open (seal m) = some m`.  The
XSalsa20 stream cipher itself is not modelled, so the "ciphertext" here
carries the plaintext bytes; every property proved below depends only on
the interface contract. -/
def secretboxTag (key nonce m : List Byte) : List Byte :=
  sipDigest (key.take 16) (nonce ++ m) ++ sipDigest ((key.drop 16).take 16) (nonce ++ m)

/-- `secretbox.Seal`: tag followed by payload (see `secretboxTag`). -/
def secretboxSeal (key nonce m : List Byte) : List Byte :=
  secretboxTag key nonce m ++ m

/-- `secretbox.Open`: checks the tag and strips it. -/
def secretboxOpen (key nonce c : List Byte) : Option (List Byte) :=
  if secretboxOverhead ≤ c.length ∧ c.take 16 = secretboxTag key nonce (c.drop 16) then
    some (c.drop 16)
  else none

/-- `boxNonce`: fixed 16-byte prefix plus a `uint64` counter. -/
structure BoxNonce where
  pfx : List Byte
  counter : Nat
deriving DecidableEq

/-- `boxNonce.init`: stores the prefix and starts the counter at 1. -/
def BoxNonce.init (pfxBytes : List Byte) : BoxNonce :=
  { pfx := pfxBytes, counter := 1 }

/-- `boxNonce.bytes`: fails with `ErrNonceCounterWrapped` when the counter
has wrapped to 0; otherwise the prefix followed by the big-endian counter. -/
def BoxNonce.bytes (n : BoxNonce) : Except FramingError (List Byte) :=
  if n.counter = 0 then .error .nonceWrapped
  else .ok (n.pfx ++ be64enc n.counter)

/-- `framing.Encoder`: box key, SipHash key, accumulated SipHash input
since the last `Reset`, and the nonce state. -/
structure Encoder where
  key : List Byte
  sipKey : List Byte
  sipAcc : List Byte
  nonce : BoxNonce
deriving DecidableEq

/-- `NewEncoder`: splits 64 bytes of key material into box key
(`key[0:32]`), nonce prefix (`key[32:48]`) and SipHash key (`key[48:]`). -/
def newEncoder (km : List Byte) : Encoder :=
  { key := km.take boxKeyLength
    sipKey := (km.drop (boxKeyLength + noncePfxLength)).take 16
    sipAcc := []
    nonce := BoxNonce.init ((km.drop boxKeyLength).take noncePfxLength) }

/-- `Encoder.Encode`: rejects oversized payloads, derives the nonce
(failing on counter wrap), seals the payload, obfuscates the box length
by xor with the leading 16 bits of the SipHash digest of the previous box
concatenated with the current nonce, and resets the SipHash accumulator
to the new box. -/
def encode (e : Encoder) (payload : List Byte) :
    Except FramingError (Encoder × List Byte) :=
  if MaximumFramePayloadLength < payload.length then
    .error (.invalidPayloadLength payload.length)
  else
    match e.nonce.bytes with
    | .error err => .error err
    | .ok nonce =>
        let counter' := (e.nonce.counter + 1) % 2 ^ 64
        let box := secretboxSeal e.key nonce payload
        let mask := sipDigest e.sipKey (e.sipAcc ++ nonce)
        let lengthField := box.length ^^^ beDec (mask.take 2)
        .ok ({ e with sipAcc := box, nonce := { e.nonce with counter := counter' } },
             be16enc lengthField ++ box)

/-- `framing.Decoder`: mirror state of the encoder plus the partial-frame
state nextNonce and nextLength (0 means waiting for the length field). -/
structure Decoder where
  key : List Byte
  sipKey : List Byte
  sipAcc : List Byte
  nonce : BoxNonce
  nextNonce : List Byte
  nextLength : Nat
deriving DecidableEq

/-- `NewDecoder`: same key-material split as `NewEncoder`. -/
def newDecoder (km : List Byte) : Decoder :=
  { key := km.take boxKeyLength
    sipKey := (km.drop (boxKeyLength + noncePfxLength)).take 16
    sipAcc := []
    nonce := BoxNonce.init ((km.drop boxKeyLength).take noncePfxLength)
    nextNonce := []
    nextLength := 0 }

/-- Result of one `Decoder.Decode` call: `again` returns the updated
state and the unconsumed buffer (`ErrAgain`), `frame` a decoded payload,
`err` a fatal error. -/
inductive DecodeOut where
  | again (d : Decoder) (buf : List Byte)
  | frame (d : Decoder) (buf : List Byte) (out : List Byte)
  | err (e : FramingError)
deriving DecidableEq

/-- The body phase of `Decoder.Decode`: once `nextLength` is known, wait
for that many bytes, open the box, then advance the nonce counter and
stash the box as the next SipHash input. -/
def decodeBody (d : Decoder) (buf : List Byte) : DecodeOut :=
  if buf.length < d.nextLength then .again d buf
  else
    let box := buf.take d.nextLength
    let rest := buf.drop d.nextLength
    match secretboxOpen d.key d.nextNonce box with
    | none => .err .tagMismatch
    | some out =>
        .frame { d with sipAcc := box, nextLength := 0,
                        nonce := { d.nonce with counter := (d.nonce.counter + 1) % 2 ^ 64 } }
          rest out

/-- `Decoder.Decode`: pull the 2-byte obfuscated length when unknown
(consuming it exactly once), derive and store the peer's nonce, unmask
the length, reject lengths outside `[minFrameLength, maxFrameLength]`,
then run the body phase. -/
def decode (d : Decoder) (buf : List Byte) : DecodeOut :=
  if d.nextLength = 0 then
    if buf.length < lengthLength then .again d buf
    else
      let obfsLen := buf.take lengthLength
      let buf1 := buf.drop lengthLength
      match d.nonce.bytes with
      | .error e => .err e
      | .ok nn =>
          let mask := sipDigest d.sipKey (d.sipAcc ++ nn)
          let len := beDec obfsLen ^^^ beDec (mask.take 2)
          if maxFrameLength < len ∨ len < minFrameLength then .err (.invalidFrameLength len)
          else decodeBody { d with nextNonce := nn, sipAcc := [], nextLength := len } buf1
  else decodeBody d buf

/-- Encode a list of payloads in sequence, collecting the frames. -/
def encodeAll (e : Encoder) : List (List Byte) → Except FramingError (Encoder × List (List Byte))
  | [] => .ok (e, [])
  | p :: ps =>
      match encode e p with
      | .error err => .error err
      | .ok (e', f) =>
          match encodeAll e' ps with
          | .error err => .error err
          | .ok (e'', fs) => .ok (e'', f :: fs)

/-- Feed each frame to `decode` in sequence, collecting the payloads;
fails unless every call returns a complete frame with an empty remainder. -/
def decodeAll (d : Decoder) : List (List Byte) → Except FramingError (Decoder × List (List Byte))
  | [] => .ok (d, [])
  | f :: fs =>
      match decode d f with
      | .frame d' rest out =>
          if rest = [] then
            match decodeAll d' fs with
            | .error err => .error err
            | .ok (d'', outs) => .ok (d'', out :: outs)
          else .error .tagMismatch
      | _ => .error .tagMismatch

end Obfs4

/-! ## Hash DRBG and weighted distribution (`drbg.go` / `weighted_dist.go`
snapshot with bucket probabilities)

`hashDrbg` keeps a streaming SipHash-2-4 object and an 8-byte OFB block
(`ofb [siphash.Size]byte`).  The streaming object is represented by the
bytes written to it so far (`acc`); `Sum` digests everything written
since construction, matching `hash.Hash` semantics — `Int63` never calls
`Reset`, so its input accumulates across calls. -/

namespace Obfs4

/-- `DrbgSeedLength = 32`. -/
def DrbgSeedLength : Nat := 32

/-- `hashDrbg`: SipHash key, bytes written to the streaming hash so far,
and the 8-byte OFB state. -/
structure HashDrbg where
  sipKey : List Byte
  acc : List Byte
  ofb : List Byte
deriving DecidableEq

/-- `newHashDrbg`: SipHash key is `seed[0:16]`; the OFB array is 8 bytes
(`siphash.Size`), so `copy(drbg.ofb[:], seed.Bytes()[16:])` keeps only
`seed[16:24]`. -/
def newHashDrbg (seed : List Byte) : HashDrbg :=
  { sipKey := seed.take 16, acc := [], ofb := (seed.drop 16).take 8 }

/-- `hashDrbg.Int63`: write the OFB block into the streaming hash, take
the digest as the new OFB block, and return it big-endian with the top
bit cleared. -/
def drbgInt63 (d : HashDrbg) : HashDrbg × Nat :=
  let acc' := d.acc ++ d.ofb
  let dig := sipDigest d.sipKey acc'
  ({ d with acc := acc', ofb := dig }, beDec dig % 2 ^ 63)

/-- Outputs of `n` successive `Int63` calls from state `d`. -/
def drbgStreamAux (d : HashDrbg) : Nat → HashDrbg × List Nat
  | 0 => (d, [])
  | n + 1 =>
      let (d', v) := drbgInt63 d
      let (d'', vs) := drbgStreamAux d' n
      (d'', v :: vs)

/-- The first `n` outputs of `hashDrbg.Int63` from a fresh seed. -/
def drbgStream (seed : List Byte) (n : Nat) : List Nat :=
  (drbgStreamAux (newHashDrbg seed) n).2

/-- The DRBG construction in the words of claim C8: the SipHash key is
`seed[0:16]`, the initial OFB state is `seed[16:32]`, and each 64-bit
output is produced by setting `OFB := SipHash(key, OFB)` (the hash of the
current state alone) and returning OFB interpreted big-endian, masked to
63 bits. -/
def specDrbgStreamC8 (seed : List Byte) (n : Nat) : List Nat :=
  (specAux (seed.take 16) ((seed.drop 16).take 16) n).2
where
  specAux (key st : List Byte) : Nat → List Byte × List Nat
    | 0 => (st, [])
    | n + 1 =>
        let st' := sipDigest key st
        let (stF, vs) := specAux key st' n
        (stF, (beDec st' % 2 ^ 63) :: vs)

/-! ### Go `math/rand` scheduling of a custom `Source`

`wDist.reset` wraps the DRBG in `rand.New` and uses `Perm` and `Float64`.
These definitions model the Go standard library's (external) scheduling
of `Source.Int63` exactly, except that `Float64`'s division is computed
in exact rational arithmetic (see the module comment): `Int63() < 2^63`
makes the quotient < 1, so the resample-on-1.0 branch never fires in the
model. -/

/-- `Rand.Int31`: the top 32 bits of `Int63`. -/
def goInt31 (d : HashDrbg) : HashDrbg × Nat :=
  ((drbgInt63 d).1, (drbgInt63 d).2 >>> 32)

/-- `Rand.Int31n` rejection loop, with explicit fuel (the rejection
probability is < 1/2 per draw; the fallback after fuel exhaustion is
unreachable for any execution this file evaluates). -/
def goInt31nAux (d : HashDrbg) (n maxA : Nat) : Nat → HashDrbg × Nat
  | 0 => ((goInt31 d).1, (goInt31 d).2 % n)
  | fuel + 1 =>
      if maxA < (goInt31 d).2 then goInt31nAux (goInt31 d).1 n maxA fuel
      else ((goInt31 d).1, (goInt31 d).2 % n)

/-- `Rand.Int31n n = v % n` for the first `v ≤ 2^31 - 1 - 2^31 % n`. -/
def goInt31n (d : HashDrbg) (n : Nat) : HashDrbg × Nat :=
  goInt31nAux d n (2 ^ 31 - 1 - 2 ^ 31 % n) 64

/-- `Rand.Intn` for `n ≤ 2^31 - 1` (the only range this code uses). -/
def goIntn (d : HashDrbg) (n : Nat) : HashDrbg × Nat := goInt31n d n

/-- `Rand.Float64` = `float64(Int63()) / (1 << 63)`, modelled exactly. -/
def goFloat64 (d : HashDrbg) : HashDrbg × ℚ :=
  ((drbgInt63 d).1, ((drbgInt63 d).2 : ℚ) / 2 ^ 63)

/-- One iteration of the `Rand.Perm` loop:
`j := Intn(i+1); m[i] = m[j]; m[j] = i`. -/
def goPermStep (st : HashDrbg × List Nat) (i : Nat) : HashDrbg × List Nat :=
  ((goIntn st.1 (i + 1)).1,
    (st.2.set i (st.2.getD ((goIntn st.1 (i + 1)).2) 0)).set ((goIntn st.1 (i + 1)).2) i)

/-- `Rand.Perm n`: the inside-out shuffle
`for i in 0..n-1 { j := Intn(i+1); m[i] = m[j]; m[j] = i }`. -/
def goPerm (d : HashDrbg) (n : Nat) : HashDrbg × List Nat :=
  (List.range n).foldl goPermStep (d, List.replicate n 0)

/-! ### `wDist` (bucket-probability snapshot, `part_014`) -/

/-- `wDist`: weighted distribution over `[minValue, maxValue]` with a
value permutation and bucket probabilities. -/
structure WDist where
  minValue : Nat
  maxValue : Nat
  values : List Nat
  buckets : List ℚ
deriving DecidableEq

/-- One step of the bucket loop:
`prob := rng.Float64() * (1.0 - totalProb); buckets[i] = prob`. -/
def bucketStep (st : HashDrbg × ℚ × List ℚ) : HashDrbg × ℚ × List ℚ :=
  ((goFloat64 st.1).1,
    st.2.1 + (goFloat64 st.1).2 * (1 - st.2.1),
    st.2.2 ++ [(goFloat64 st.1).2 * (1 - st.2.1)])

/-- `wDist.reset`: rebuild `values` (a DRBG-driven permutation of the
bucket indices) and `buckets` from a fresh DRBG, then overwrite the last
bucket with `1.0`. -/
def wDistReset (seed : List Byte) (minV maxV : Nat) : WDist :=
  let d := newHashDrbg seed
  let nBuckets := maxV + 1 - minV
  let (d1, vals) := goPerm d nBuckets
  let bs := ((List.range nBuckets).foldl (fun st _ => bucketStep st) (d1, 0, [])).2.2
  { minValue := minV, maxValue := maxV, values := vals
    buckets := bs.set (bs.length - 1) 1 }

/-- The rebuild in the words of claim C7: identical except that the last
bucket's probability is set to 1 minus the sum of all earlier bucket
probabilities. -/
def wDistResetClaimC7 (seed : List Byte) (minV maxV : Nat) : WDist :=
  let d := newHashDrbg seed
  let nBuckets := maxV + 1 - minV
  let (d1, vals) := goPerm d nBuckets
  let bs := ((List.range nBuckets).foldl (fun st _ => bucketStep st) (d1, 0, [])).2.2
  { minValue := minV, maxValue := maxV, values := vals
    buckets := bs.set (bs.length - 1) (1 - (bs.take (bs.length - 1)).sum) }

/-- `wDist.sample`, with the `csrand.Float64()` draw as a parameter: scan
the buckets for the first index whose cumulative probability reaches the
draw (default index 0), and return `minValue + values[retIdx]`. -/
def wDistSample (w : WDist) (u : ℚ) : Nat :=
  let idx := (sampleScan u 0 w.buckets).getD 0
  w.minValue + w.values.getD idx 0
where
  /-- First index whose cumulative probability reaches `u`, if any. -/
  sampleScan (u total : ℚ) : List ℚ → Option Nat
    | [] => none
    | p :: ps =>
        if u ≤ total + p then some 0
        else (sampleScan u (total + p) ps).map (· + 1)

/-! ## Packet layer (`packet.go`) and burst padding (`obfs4.go`) -/

/-- `packetOverhead = 2 + 1`: type byte plus 16-bit length. -/
def packetOverhead : Nat := 2 + 1

/-- `maxPacketPayloadLength = MaximumFramePayloadLength - packetOverhead`. -/
def maxPacketPayloadLength : Nat := MaximumFramePayloadLength - packetOverhead

/-- `headerLength = FrameOverhead + packetOverhead` (from `obfs4.go`). -/
def headerLength : Nat := FrameOverhead + packetOverhead

/-- `packetTypePayload = 0`. -/
def packetTypePayload : Nat := 0

/-- `packetTypePrngSeed = 1`. -/
def packetTypePrngSeed : Nat := 1

/-- `makePacket`: type byte, big-endian payload length, payload, zero
padding.  The Go code panics when `len(data)+padLen` exceeds
`maxPacketPayloadLength`; the panic is modelled as `none`. -/
def makePacket (pktType : Nat) (data : List Byte) (padLen : Nat) : Option (List Byte) :=
  if maxPacketPayloadLength < data.length + padLen then none
  else some ([pktType] ++ be16enc data.length ++ data ++ List.replicate padLen 0)

/-- Modelled from the spec: `producePacket` is absent from `src/` (only
its call sites in `obfs4.go` are present).  Per spec section 4.5 and the
in-source `makeAndEncryptPacket` (`packet.go`), it wraps `data` in a
packet, encodes the packet as a single AEAD frame, and appends the frame
to the burst buffer. -/
def producePacket (e : Encoder) (burst : List Byte) (pktType : Nat)
    (data : List Byte) (padLen : Nat) : Except FramingError (Encoder × List Byte) :=
  match makePacket pktType data padLen with
  | none => .error .packetLengthPanic
  | some pkt =>
      match encode e pkt with
      | .error err => .error err
      | .ok (e', frame) => .ok (e', burst ++ frame)

/-- The `padLen` computation at the head of `Obfs4Conn.padBurst`, with
the `lenProbDist.sample()` draw as the parameter `toPadTo`. -/
def padLenOf (burstLen toPadTo : Nat) : Nat :=
  if burstLen % MaximumSegmentLength ≤ toPadTo then
    toPadTo - burstLen % MaximumSegmentLength
  else (MaximumSegmentLength - burstLen % MaximumSegmentLength) + toPadTo

/-- `Obfs4Conn.padBurst`: append one padding packet of `padLen -
headerLength` inner padding when `padLen > headerLength`; otherwise, when
`padLen > 0`, append a maximum-size padding packet followed by one with
`padLen` inner padding; when `padLen = 0`, append nothing. -/
def padBurst (e : Encoder) (burst : List Byte) (toPadTo : Nat) :
    Except FramingError (Encoder × List Byte) :=
  let padLen := padLenOf burst.length toPadTo
  if headerLength < padLen then
    producePacket e burst packetTypePayload [] (padLen - headerLength)
  else if 0 < padLen then
    match producePacket e burst packetTypePayload [] maxPacketPayloadLength with
    | .error err => .error err
    | .ok (e1, burst1) => producePacket e1 burst1 packetTypePayload [] padLen
  else .ok (e, burst)

/-! ## Replay filter (`replay_filter` half of `packet.go`) -/

/-- `maxFilterSize = 100 * 1024`. -/
def maxFilterSize : Nat := 100 * 1024

/-- `replayFilter`: random SipHash key halves and the FIFO of
`(digest, firstSeen)` entries, front first.  The hash map of the source
is derivable from the FIFO (hashes in the FIFO are distinct by
construction), so only the FIFO is carried. -/
structure ReplayFilter where
  key0 : Nat
  key1 : Nat
  fifo : List (Nat × Int)
deriving DecidableEq

/-- `newReplayFilter` with the two random key words as parameters. -/
def newReplayFilter (k0 k1 : Nat) : ReplayFilter := { key0 := k0, key1 := k1, fifo := [] }

/-- `replayFilter.compactFilter`: walk the FIFO front; below capacity,
drop the whole filter on a negative time delta and stop at the first
entry younger than 2 hours; at capacity, force-evict unconditionally. -/
def compactFifo (now : Int) : List (Nat × Int) → List (Nat × Int)
  | [] => []
  | (h, t) :: rest =>
      if ((h, t) :: rest).length < maxFilterSize then
        if now - t < 0 then []
        else if now - t < 3600 * 2 then (h, t) :: rest
        else compactFifo now rest
      else compactFifo now rest

/-- `replayFilter.testAndSet`: hash the buffer, compact, then report a
hit or insert at the back. -/
def testAndSet (f : ReplayFilter) (now : Int) (buf : List Byte) : Bool × ReplayFilter :=
  let h := sipHash24 f.key0 f.key1 buf
  let fifo := compactFifo now f.fifo
  if fifo.any fun entry => entry.1 = h then (true, { f with fifo := fifo })
  else (false, { f with fifo := fifo ++ [(h, now)] })

/-! ## Handshake (`handshake_ntor.go`)

HMAC-SHA256 keyed with the server's identity public key is the abstract
parameter `mac` (an external primitive; its output is 32 bytes, stated as
a hypothesis where needed).  The `ntor` package is absent from `src/`
(only its tests are), so its length constants are modelled from the spec.
The parse function below covers the deterministic validation portion of
`serverHandshake.parseClientHandshake` — everything up to and including
the trailing-garbage check; the subsequent ntor key agreement draws fresh
randomness and is outside this embedding. -/

/-- Modelled from the spec: `ntor.RepresentativeLength` (the `ntor`
package is not under `src/`); a representative is 32 bytes. -/
def RepresentativeLength : Nat := 32

/-- Modelled from the spec: `ntor.AuthLength`; the AUTH tag is 32 bytes. -/
def AuthLength : Nat := 32

/-- `markLength = sha256.Size = 32`. -/
def markLength : Nat := 32

/-- `macLength = sha256.Size = 32`. -/
def macLength : Nat := 32

/-- `clientMinHandshakeLength = RepresentativeLength + markLength + macLength`. -/
def clientMinHandshakeLength : Nat := RepresentativeLength + markLength + macLength

/-- `clientMaxHandshakeLength = MaximumSegmentLength`. -/
def clientMaxHandshakeLength : Nat := MaximumSegmentLength

/-- `serverMinHandshakeLength`: representative, AUTH, mark and MAC. -/
def serverMinHandshakeLength : Nat :=
  RepresentativeLength + AuthLength + markLength + macLength

/-- `serverMaxHandshakeLength = MaximumSegmentLength`. -/
def serverMaxHandshakeLength : Nat := MaximumSegmentLength

/-- `clientMinPadLength = serverMinHandshakeLength - clientMinHandshakeLength`. -/
def clientMinPadLength : Nat := serverMinHandshakeLength - clientMinHandshakeLength

/-- `clientMaxPadLength = MaximumSegmentLength - clientMinHandshakeLength`. -/
def clientMaxPadLength : Nat := MaximumSegmentLength - clientMinHandshakeLength

/-- `getEpochHour`: hours since the UNIX epoch, `time.Now().Unix()/3600`
(non-negative in any reachable execution, so `Nat` division is the Go
truncated division and equals the floor). -/
def getEpochHour (unixSeconds : Nat) : Nat := unixSeconds / 3600

/-- ASCII decimal digits of a natural number (fuel-based helper). -/
def decDigitsAux : Nat → Nat → List Byte
  | 0, _ => []
  | fuel + 1, n => if n < 10 then [48 + n] else decDigitsAux fuel (n / 10) ++ [48 + n % 10]

/-- `strconv.FormatInt(e, 10)` as ASCII bytes (codepoint 45 is the minus
sign). -/
def epochStrBytes (e : Int) : List Byte :=
  if e < 0 then 45 :: decDigitsAux (e.natAbs + 1) e.natAbs
  else decDigitsAux (e.toNat + 1) e.toNat

/-- Whether `pat` occurs in `buf` at offset `p`. -/
def matchAt (buf pat : List Byte) (p : Nat) : Bool :=
  decide ((buf.drop p).take pat.length = pat)

/-- `findMark`: `bytes.Index(buf[startPos:endPos], mark)` with
`endPos = min(len(buf), maxPos)`, result relative to the buffer start. -/
def findMark (mark buf : List Byte) (startPos maxPos : Nat) : Option Nat :=
  let endPos := min buf.length maxPos
  if endPos < startPos + mark.length then none
  else
    ((List.range (endPos - mark.length + 1 - startPos)).find? fun off =>
        matchAt buf mark (startPos + off)).map (startPos + ·)

/-- Handshake parse outcomes relevant to the embedded validation. -/
inductive HandshakeErr where
  | markNotFoundYet
  | invalidHandshake
deriving DecidableEq

/-- `clientHandshake.generateHandshake` with the HMAC object collapsed to
the abstract `mac`, the padding bytes (drawn by `makePad` from the
CSPRNG) as the parameter `pad`, and the epoch hour as `E`:
`X | P_C | M_C | MAC(X | P_C | M_C | E)`. -/
def generateClientHandshake (mac : List Byte → List Byte)
    (reprB pad : List Byte) (E : Int) : List Byte :=
  let mark := mac reprB
  let buf := reprB ++ pad ++ mark
  buf ++ mac (buf ++ epochStrBytes E)

/-- The deterministic validation portion of
`serverHandshake.parseClientHandshake` given the server's current epoch
hour `E`: minimum-length gate, mark derivation from the first 32 bytes,
mark search, MAC comparison at epoch offsets `0, -1, +1` (in that
order), and the trailing-garbage check. -/
def parseClientHandshakeValidation (mac : List Byte → List Byte)
    (resp : List Byte) (E : Int) : Except HandshakeErr Unit :=
  if resp.length < clientMinHandshakeLength then .error .markNotFoundYet
  else
    let reprB := resp.take RepresentativeLength
    let clientMark := mac reprB
    match findMark clientMark resp RepresentativeLength serverMaxHandshakeLength with
    | none =>
        if clientMaxHandshakeLength ≤ resp.length then .error .invalidHandshake
        else .error .markNotFoundYet
    | some pos =>
        let macRx := (resp.drop (pos + markLength)).take macLength
        let macFound := [(0 : Int), -1, 1].any fun off =>
          decide (mac (resp.take (pos + markLength) ++ epochStrBytes (E + off)) = macRx)
        if ¬ macFound then .error .invalidHandshake
        else if resp.length ≠ pos + markLength + macLength then .error .invalidHandshake
        else .ok ()

/-! ## Server state construction (`transports/obfs4/statefile.go`)

`serverStateFromArgs` and `jsonServerStateFromFile` are embedded over an
explicit model of their environment: `file` is the parsed content of
`obfs4_state.json` when it exists, and `fresh` is the state that
`newJSONServerState` would generate from the CSPRNG (and persist) when
the file is missing.  The subsequent base64/ntor decoding of
`serverStateFromJSONServerState` operates on external-package types and
is outside the embedding. -/

/-- The three argument names consulted by `serverStateFromArgs`. -/
inductive ArgKind where
  | nodeID
  | privateKey
  | drbgSeed
deriving DecidableEq

/-- Setup-time failure: a missing argument. -/
inductive StateErr where
  | missingArg (a : ArgKind)
deriving DecidableEq

/-- `jsonServerState`: the four base64 string fields of the state file. -/
structure JsonServerState where
  nodeID : String
  privateKey : String
  publicKey : String
  drbgSeed : String
deriving DecidableEq

/-- `serverStateFromArgs`: use the three arguments when all are present;
fall back to the state file (creating it from fresh randomness when
missing) when all are absent; otherwise fail naming the first missing
argument (checked in the order private-key, node-id, drbg-seed). -/
def serverStateFromArgs (file : Option JsonServerState) (fresh : JsonServerState)
    (argNodeID argPrivateKey argSeed : Option String) : Except StateErr JsonServerState :=
  if argPrivateKey = none ∧ argNodeID = none ∧ argSeed = none then
    match file with
    | some js => .ok js
    | none => .ok fresh
  else if argPrivateKey = none then .error (.missingArg .privateKey)
  else if argNodeID = none then .error (.missingArg .nodeID)
  else if argSeed = none then .error (.missingArg .drbgSeed)
  else
    .ok { nodeID := argNodeID.getD ("") , privateKey := argPrivateKey.getD ("")
          publicKey := "", drbgSeed := argSeed.getD ("") }

/-! ## Auxiliary definitions used by the statements below -/

instance {ε α : Type} [DecidableEq ε] [DecidableEq α] : DecidableEq (Except ε α) := fun a b =>
  match a, b with
  | .ok x, .ok y =>
      if h : x = y then .isTrue (congrArg Except.ok h)
      else .isFalse fun hh => h (Except.ok.inj hh)
  | .error x, .error y =>
      if h : x = y then .isTrue (congrArg Except.error h)
      else .isFalse fun hh => h (Except.error.inj hh)
  | .ok _, .error _ => .isFalse Except.noConfusion
  | .error _, .ok _ => .isFalse Except.noConfusion

/-- Closed form of the accumulated SipHash input of `hashDrbg` after `k`
calls to `Int63`: the concatenation of the successive OFB blocks, where
the first block is `seed[16:24]` and each later block is the digest of
the input accumulated before it. -/
def sipInput (seed : List Byte) : Nat → List Byte
  | 0 => []
  | k + 1 =>
      sipInput seed k ++
        (if k = 0 then (seed.drop 16).take 8
         else sipDigest (seed.take 16) (sipInput seed k))

/-- The OFB block before the `(k+1)`-th `Int63` call (see `sipInput`). -/
def ofbAt (seed : List Byte) (k : Nat) : List Byte :=
  if k = 0 then (seed.drop 16).take 8 else sipDigest (seed.take 16) (sipInput seed k)

/-- The `hashDrbg` state reached after `k` `Int63` calls from a fresh
seed, in closed form. -/
def stateAt (seed : List Byte) (k : Nat) : HashDrbg :=
  { sipKey := seed.take 16, acc := sipInput seed k, ofb := ofbAt seed k }

/-- The stream of `Rand.Float64` draws from a DRBG state. -/
def bucketFloats (d : HashDrbg) : Nat → List ℚ
  | 0 => []
  | n + 1 => (goFloat64 d).2 :: bucketFloats (goFloat64 d).1 n

/-- Declarative bucket probabilities: `p_i = f_i * (1 - Σ_{j<i} p_j)`. -/
def bucketProbsAux (total : ℚ) : List ℚ → List ℚ
  | [] => []
  | f :: fs =>
      let p := f * (1 - total)
      p :: bucketProbsAux (total + p) fs

/-- A concrete stand-in used to instantiate the abstract HMAC-SHA256
parameter in witnesses: 32 bytes obtained from a keyed fold over the
message (only its 32-byte output length and concrete values matter). -/
def macToy (m : List Byte) : List Byte :=
  (List.range 32).map fun i => (m.foldl (fun a b => (a * 131 + b + 7) % 251) (i + 13)) % 251

/-- The concrete client handshake message used for the replay analysis:
built by `generateClientHandshake` at epoch hour 402775. -/
def msgReplayW : List Byte :=
  generateClientHandshake macToy (List.replicate 32 2) (List.replicate 32 5) 402775

/-- The synchronisation invariant between a frame encoder and the
decoder consuming its output: same keys, same SipHash accumulator, same
nonce, and the decoder is between frames. -/
def Synced (e : Encoder) (d : Decoder) : Prop :=
  d.key = e.key ∧ d.sipKey = e.sipKey ∧ d.sipAcc = e.sipAcc ∧ d.nonce = e.nonce ∧
    d.nextLength = 0

/-- A concrete encoder whose nonce counter has been forced to `2^64 - 1`
(the "test shim" of the spec's nonce-wrap scenario). -/
def encAlmostWrapped : Encoder :=
  { newEncoder (List.range 64) with
    nonce := { (newEncoder (List.range 64)).nonce with counter := 2 ^ 64 - 1 } }

/-! # Lemmas and claim theorems -/

theorem length_le64enc (n : Nat) : (le64enc n).length = 8 := by
  simp [le64enc]

theorem length_sipDigest (k m : List Byte) : (sipDigest k m).length = 8 := by
  simp [sipDigest, length_le64enc]

theorem length_be16enc (n : Nat) : (be16enc n).length = 2 := rfl

theorem length_secretboxTag (k nn m : List Byte) : (secretboxTag k nn m).length = 16 := by
  simp [secretboxTag, length_sipDigest]

theorem length_secretboxSeal (k nn m : List Byte) :
    (secretboxSeal k nn m).length = m.length + 16 := by
  simp [secretboxSeal, length_secretboxTag]
  omega

theorem secretboxOpen_seal (k nn m : List Byte) :
    secretboxOpen k nn (secretboxSeal k nn m) = some m := by
  have ht := length_secretboxTag k nn m
  have htake : (secretboxTag k nn m ++ m).take 16 = secretboxTag k nn m := by
    conv_lhs => rw [← ht]
    exact List.take_left _ _
  have hdrop : (secretboxTag k nn m ++ m).drop 16 = m := by
    conv_lhs => rw [← ht]
    exact List.drop_left _ _
  unfold secretboxOpen secretboxSeal
  rw [if_pos]
  · rw [hdrop]
  · refine ⟨?_, ?_⟩
    · simp only [List.length_append, ht, secretboxOverhead]
      omega
    · rw [htake, hdrop]

theorem beDec_be16enc (n : Nat) (h : n < 2 ^ 16) : beDec (be16enc n) = n := by
  simp only [be16enc, beDec, List.foldl, Nat.shiftRight_eq_div_pow]
  omega

theorem take2_le64enc (n : Nat) : (le64enc n).take 2 = [n % 256, (n >>> 8) % 256] := rfl

theorem beDec_mask_lt (k m : List Byte) :
    beDec ((sipDigest k m).take 2) < 2 ^ 16 := by
  simp only [sipDigest, take2_le64enc, beDec, List.foldl]
  have h1 := Nat.mod_lt (sipHash24 (sipK0 k) (sipK1 k) m) (show 0 < 256 by omega)
  have h2 := Nat.mod_lt (sipHash24 (sipK0 k) (sipK1 k) m >>> 8) (show 0 < 256 by omega)
  omega

/-- Successful `Encode`: the exact result when the payload fits and the
counter has not wrapped. -/
theorem encode_ok (e : Encoder) (p : List Byte)
    (hp : p.length ≤ MaximumFramePayloadLength) (hc : e.nonce.counter ≠ 0) :
    encode e p = .ok
      ({ e with
          sipAcc := secretboxSeal e.key (e.nonce.pfx ++ be64enc e.nonce.counter) p,
          nonce := { e.nonce with counter := (e.nonce.counter + 1) % 2 ^ 64 } },
        be16enc ((secretboxSeal e.key (e.nonce.pfx ++ be64enc e.nonce.counter) p).length ^^^
            beDec ((sipDigest e.sipKey
              (e.sipAcc ++ (e.nonce.pfx ++ be64enc e.nonce.counter))).take 2)) ++
          secretboxSeal e.key (e.nonce.pfx ++ be64enc e.nonce.counter) p) := by
  rw [encode, if_neg (Nat.not_lt.mpr hp)]
  rw [BoxNonce.bytes, if_neg hc]

/-- A failed `Encode` is an `InvalidPayloadLengthError` or a nonce wrap,
never the packet-length panic. -/
theorem encode_error_shape (e : Encoder) (p : List Byte) (err : FramingError)
    (h : encode e p = .error err) :
    err = .invalidPayloadLength p.length ∨ err = .nonceWrapped := by
  rw [encode] at h
  by_cases hlen : MaximumFramePayloadLength < p.length
  · rw [if_pos hlen] at h
    exact .inl (Except.error.inj h).symm
  · rw [if_neg hlen] at h
    rw [BoxNonce.bytes] at h
    by_cases hc : e.nonce.counter = 0
    · rw [if_pos hc] at h
      exact .inr (Except.error.inj h).symm
    · rw [if_neg hc] at h
      exact absurd h (by simp)

/-- The length of a successfully encoded frame is the payload length plus
`FrameOverhead`, and the counter advances by one (mod 2^64). -/
theorem encode_ok_length (e : Encoder) (p : List Byte)
    (hp : p.length ≤ MaximumFramePayloadLength) (hc : e.nonce.counter ≠ 0) :
    ∃ e' frame, encode e p = .ok (e', frame) ∧
      frame.length = p.length + FrameOverhead ∧
      e'.nonce.counter = (e.nonce.counter + 1) % 2 ^ 64 := by
  refine ⟨_, _, encode_ok e p hp hc, ?_, rfl⟩
  simp [List.length_append, length_be16enc, length_secretboxSeal, FrameOverhead,
    lengthLength, secretboxOverhead]
  omega

/-- C4, amended: the counter value `2^64 - 1` still yields one successful
`Encode` (its nonce uses the final counter value); that call leaves the
counter at 0, and the following `Encode` fails with `NonceWrapped` and
produces no frame. -/
theorem c4_nonce_wrap_amended (e : Encoder) (x : List Byte)
    (hx : x.length ≤ MaximumFramePayloadLength)
    (hc : e.nonce.counter = 2 ^ 64 - 1) :
    ∃ e' frame, encode e x = .ok (e', frame) ∧ e'.nonce.counter = 0 ∧
      encode e' x = .error .nonceWrapped := by
  have h1 : e.nonce.counter ≠ 0 := by rw [hc]; omega
  refine ⟨_, _, encode_ok e x hx h1, ?_, ?_⟩
  · simp [hc]
  · rw [encode, if_neg (Nat.not_lt.mpr hx), BoxNonce.bytes, if_pos (by simp [hc])]

/-- C4, counterexample to the claim as stated: with the counter forced to
`2^64 - 1`, the very next `Encode` does **not** return `NonceWrapped` —
it succeeds (the failure only happens one call later). -/
theorem c4_counterexample :
    encode encAlmostWrapped [0, 1, 2] ≠ .error .nonceWrapped := by decide

/-- Witness for `c4_nonce_wrap_amended` at a concrete encoder. -/
theorem c4_nonce_wrap_amended_witness :
    ∃ e' frame, encode encAlmostWrapped [7] = .ok (e', frame) ∧ e'.nonce.counter = 0 ∧
      encode e' [7] = .error .nonceWrapped :=
  c4_nonce_wrap_amended encAlmostWrapped [7] (by decide) (by decide)

theorem MSL_eq : MaximumSegmentLength = 1460 := rfl

theorem headerLength_eq : headerLength = 21 := rfl

theorem maxPPL_eq : maxPacketPayloadLength = 1439 := rfl

theorem MFPL_eq : MaximumFramePayloadLength = 1442 := rfl

theorem FrameOverhead_eq : FrameOverhead = 18 := rfl

/-- A failed `producePacket` within the payload bound is an encoder
error, never the `makePacket` panic. -/
theorem producePacket_no_panic (e : Encoder) (burst : List Byte) (t : Nat)
    (data : List Byte) (padLen : Nat)
    (hlen : data.length + padLen ≤ maxPacketPayloadLength) (err : FramingError)
    (h : producePacket e burst t data padLen = .error err) :
    err ≠ .packetLengthPanic := by
  rw [producePacket, makePacket, if_neg (Nat.not_lt.mpr hlen)] at h
  dsimp only at h
  cases henc : encode e ([t] ++ be16enc data.length ++ data ++ List.replicate padLen 0) with
  | error e2 =>
      rw [henc] at h
      obtain h' := Except.error.inj h
      subst h'
      rcases encode_error_shape _ _ _ henc with h2 | h2 <;> simp [h2]
  | ok pr =>
      obtain ⟨e', fr⟩ := pr
      rw [henc] at h
      exact absurd h (by simp)

/-- A successful `producePacket` appends `headerLength + |data| + padLen`
bytes to the burst and bumps the counter. -/
theorem producePacket_ok_length (e : Encoder) (burst : List Byte) (t : Nat)
    (data : List Byte) (padLen : Nat)
    (hlen : data.length + padLen ≤ maxPacketPayloadLength) (hc : e.nonce.counter ≠ 0) :
    ∃ e' b, producePacket e burst t data padLen = .ok (e', b) ∧
      b.length = burst.length + (headerLength + data.length + padLen) ∧
      e'.nonce.counter = (e.nonce.counter + 1) % 2 ^ 64 := by
  rw [producePacket, makePacket, if_neg (Nat.not_lt.mpr hlen)]
  dsimp only
  have hp : ([t] ++ be16enc data.length ++ data ++ List.replicate padLen 0).length ≤
      MaximumFramePayloadLength := by
    simp [length_be16enc, MFPL_eq]
    rw [maxPPL_eq] at hlen
    omega
  obtain ⟨e', frame, henc, hflen, hcnt⟩ :=
    encode_ok_length e ([t] ++ be16enc data.length ++ data ++ List.replicate padLen 0) hp hc
  rw [henc]
  refine ⟨e', burst ++ frame, rfl, ?_, hcnt⟩
  simp only [List.length_append, hflen, List.length_singleton, length_be16enc,
    List.length_replicate, headerLength_eq, FrameOverhead_eq]
  omega

/-- C10: for any burst and any sampled value in `[0, MaximumSegmentLength]`,
the pad length computed by `padBurst` is at most `MaximumSegmentLength`,
and `padBurst` can never trip the length panic in `makePacket`. -/
theorem c10_pad_burst_no_panic (e : Encoder) (burst : List Byte) (toPadTo : Nat)
    (h : toPadTo ≤ MaximumSegmentLength) :
    padLenOf burst.length toPadTo ≤ MaximumSegmentLength ∧
    ∀ err, padBurst e burst toPadTo = .error err → err ≠ .packetLengthPanic := by
  have htail : burst.length % MaximumSegmentLength < MaximumSegmentLength :=
    Nat.mod_lt _ (by rw [MSL_eq]; omega)
  have hbound : padLenOf burst.length toPadTo ≤ MaximumSegmentLength := by
    rw [padLenOf]
    split <;> omega
  refine ⟨hbound, ?_⟩
  intro err herr
  rw [padBurst] at herr
  by_cases h1 : headerLength < padLenOf burst.length toPadTo
  · rw [if_pos h1] at herr
    refine producePacket_no_panic _ _ _ _ _ ?_ err herr
    simp only [List.length_nil, Nat.zero_add, maxPPL_eq, headerLength_eq]
    rw [MSL_eq] at hbound
    rw [headerLength_eq] at h1
    omega
  · rw [if_neg h1] at herr
    by_cases h2 : 0 < padLenOf burst.length toPadTo
    · rw [if_pos h2] at herr
      cases hpp : producePacket e burst packetTypePayload [] maxPacketPayloadLength with
      | error err1 =>
          rw [hpp] at herr
          obtain h' := Except.error.inj herr
          subst h'
          exact producePacket_no_panic _ _ _ _ _ (by simp) err1 hpp
      | ok pr =>
          obtain ⟨e1, b1⟩ := pr
          rw [hpp] at herr
          refine producePacket_no_panic _ _ _ _ _ ?_ err herr
          simp only [List.length_nil, Nat.zero_add, maxPPL_eq]
          rw [headerLength_eq] at h1
          omega
    · rw [if_neg h2] at herr
      exact absurd herr (by simp)

/-- Witness for `c10_pad_burst_no_panic` at a concrete connection state. -/
theorem c10_pad_burst_no_panic_witness :
    padLenOf (List.replicate 3 (0 : Nat)).length 1460 ≤ MaximumSegmentLength ∧
    ∀ err, padBurst (newEncoder (List.range 64)) (List.replicate 3 0) 1460 = .error err →
      err ≠ .packetLengthPanic :=
  c10_pad_burst_no_panic (newEncoder (List.range 64)) (List.replicate 3 0) 1460 (by decide)

/-- C3, amended: when the computed `pad_len` exceeds `headerLength` (21)
exactly `pad_len` bytes are appended, so the burst length modulo
`MaximumSegmentLength` becomes the sampled value (mod `SEG`); when
`pad_len = 0` nothing is appended; but when `0 < pad_len ≤ headerLength`
the two emitted packets append `SEG + headerLength + pad_len` bytes, so
the burst length modulo `SEG` equals sample + headerLength (mod `SEG`),
not the sampled value. -/
theorem c3_burst_padding_amended (e : Encoder) (burst : List Byte) (toPadTo : Nat)
    (h : toPadTo ≤ MaximumSegmentLength)
    (hc : e.nonce.counter ≠ 0)
    (hc2 : (e.nonce.counter + 1) % 2 ^ 64 ≠ 0) :
    (headerLength < padLenOf burst.length toPadTo →
      ∃ e' b, padBurst e burst toPadTo = .ok (e', b) ∧
        b.length = burst.length + padLenOf burst.length toPadTo ∧
        b.length % MaximumSegmentLength = toPadTo % MaximumSegmentLength) ∧
    (padLenOf burst.length toPadTo = 0 →
      padBurst e burst toPadTo = .ok (e, burst)) ∧
    (0 < padLenOf burst.length toPadTo → padLenOf burst.length toPadTo ≤ headerLength →
      ∃ e' b, padBurst e burst toPadTo = .ok (e', b) ∧
        b.length = burst.length + MaximumSegmentLength + headerLength +
          padLenOf burst.length toPadTo ∧
        b.length % MaximumSegmentLength =
          (toPadTo + headerLength) % MaximumSegmentLength) := by
  have h' : toPadTo ≤ 1460 := by rw [MSL_eq] at h; exact h
  have htail : burst.length % 1460 < 1460 := Nat.mod_lt _ (by omega)
  have hbound : padLenOf burst.length toPadTo ≤ 1460 := by
    simp only [padLenOf, MSL_eq]
    split <;> omega
  have hpadmod : (burst.length + padLenOf burst.length toPadTo) % 1460 = toPadTo % 1460 := by
    simp only [padLenOf, MSL_eq]
    split <;> omega
  refine ⟨?_, ?_, ?_⟩
  · intro h1
    rw [padBurst, if_pos h1]
    rw [headerLength_eq] at h1
    obtain ⟨e', b, hpp, hlen, _⟩ :=
      producePacket_ok_length e burst packetTypePayload []
        (padLenOf burst.length toPadTo - headerLength)
        (by simp only [List.length_nil, maxPPL_eq, headerLength_eq]; omega) hc
    refine ⟨e', b, hpp, ?_, ?_⟩
    · rw [hlen]
      simp only [List.length_nil, headerLength_eq]
      omega
    · rw [hlen]
      simp only [List.length_nil, headerLength_eq, MSL_eq]
      omega
  · intro h0
    rw [padBurst, if_neg (by omega), if_neg (by omega)]
  · intro h2 h1
    rw [padBurst, if_neg (by omega), if_pos h2]
    obtain ⟨e1, b1, hpp1, hlen1, hcnt1⟩ :=
      producePacket_ok_length e burst packetTypePayload [] maxPacketPayloadLength
        (by simp) hc
    rw [hpp1]
    obtain ⟨e2, b2, hpp2, hlen2, _⟩ :=
      producePacket_ok_length e1 b1 packetTypePayload [] (padLenOf burst.length toPadTo)
        (by simp only [List.length_nil, Nat.zero_add, maxPPL_eq]
            rw [headerLength_eq] at h1
            omega)
        (by rw [hcnt1]; exact hc2)
    refine ⟨e2, b2, hpp2, ?_, ?_⟩
    · rw [hlen2, hlen1]
      simp only [List.length_nil, headerLength_eq, MSL_eq, maxPPL_eq]
      omega
    · rw [hlen2, hlen1]
      simp only [List.length_nil, headerLength_eq, MSL_eq, maxPPL_eq]
      omega

/-- C3, counterexample to the claim as stated: a burst of 10 bytes and a
sampled value of 15 give `pad_len = 5 ≤ headerLength`, so two packets are
appended; the burst grows to 1496 bytes and its length modulo
`MaximumSegmentLength` is 36, not the sampled value 15. -/
theorem c3_counterexample :
    ∃ e' b, padBurst (newEncoder (List.range 64)) (List.replicate 10 0) 15 = .ok (e', b) ∧
      b.length % MaximumSegmentLength = 36 ∧
      (36 : Nat) ≠ 15 ∧ (36 : Nat) ≠ 15 % MaximumSegmentLength := by
  obtain ⟨e1, b1, hpp1, hlen1, hcnt1⟩ :=
    producePacket_ok_length (newEncoder (List.range 64)) (List.replicate 10 0)
      packetTypePayload [] maxPacketPayloadLength (by decide) (by decide)
  obtain ⟨e2, b2, hpp2, hlen2, _⟩ :=
    producePacket_ok_length e1 b1 packetTypePayload [] 5
      (by decide) (by rw [hcnt1]; decide)
  refine ⟨e2, b2, ?_, ?_, by decide, by decide⟩
  · rw [padBurst, if_neg (by decide), if_pos (by decide)]
    rw [show padLenOf (List.replicate 10 (0 : Nat)).length 15 = 5 from by decide]
    rw [hpp1]
    dsimp only
    exact hpp2
  · rw [hlen2, hlen1]
    decide

/-- Witness for `c3_burst_padding_amended` at a concrete input hitting
the two-packet branch. -/
theorem c3_burst_padding_amended_witness :
    ∃ e' b, padBurst (newEncoder (List.range 64)) (List.replicate 10 0) 15 = .ok (e', b) ∧
      b.length = (List.replicate 10 (0 : Nat)).length + MaximumSegmentLength + headerLength +
        padLenOf (List.replicate 10 (0 : Nat)).length 15 ∧
      b.length % MaximumSegmentLength = (15 + headerLength) % MaximumSegmentLength :=
  (c3_burst_padding_amended (newEncoder (List.range 64)) (List.replicate 10 0) 15
      (by decide) (by decide) (by decide)).2.2 (by decide) (by decide)

/-- C9: server state construction from the argument map.  When node-id,
private-key and drbg-seed are all present they are used as given; when
all three are absent the state comes from the state file (or, if the
file does not exist, the freshly generated state that is also written
back); when only some are present, construction fails with a
missing-argument error. -/
theorem c9_server_state_cases (file : Option JsonServerState) (fresh : JsonServerState)
    (an ap as' : Option String) :
    (∀ n p s, an = some n → ap = some p → as' = some s →
      serverStateFromArgs file fresh an ap as' =
        .ok { nodeID := n, privateKey := p, publicKey := "", drbgSeed := s }) ∧
    (an = none → ap = none → as' = none →
      serverStateFromArgs file fresh an ap as' = .ok (file.getD fresh)) ∧
    ((an = none ∨ ap = none ∨ as' = none) → ¬(an = none ∧ ap = none ∧ as' = none) →
      ∃ a, serverStateFromArgs file fresh an ap as' = .error (.missingArg a)) := by
  refine ⟨?_, ?_, ?_⟩
  · intro n p s hn hp hs
    subst hn hp hs
    simp [serverStateFromArgs]
  · intro hn hp hs
    subst hn hp hs
    cases file <;> simp [serverStateFromArgs, Option.getD]
  · intro hor hnall
    rcases an with _ | n <;> rcases ap with _ | p <;> rcases as' with _ | s
    · exact absurd ⟨rfl, rfl, rfl⟩ hnall
    · exact ⟨.privateKey, by simp [serverStateFromArgs]⟩
    · exact ⟨.nodeID, by simp [serverStateFromArgs]⟩
    · exact ⟨.nodeID, by simp [serverStateFromArgs]⟩
    · exact ⟨.privateKey, by simp [serverStateFromArgs]⟩
    · exact ⟨.privateKey, by simp [serverStateFromArgs]⟩
    · exact ⟨.drbgSeed, by simp [serverStateFromArgs]⟩
    · simp at hor

/-- Witness for `c9_server_state_cases`: a mixed argument set (only
node-id present) is rejected with a missing-argument error. -/
theorem c9_server_state_cases_witness :
    ∃ a, serverStateFromArgs none
        { nodeID := "x", privateKey := "y", publicKey := "z", drbgSeed := "w" }
        (some ("n")) none none = .error (.missingArg a) :=
  (c9_server_state_cases none
      { nodeID := "x", privateKey := "y", publicKey := "z", drbgSeed := "w" }
      (some ("n")) none none).2.2 (.inr (.inl rfl)) (by simp)

set_option maxRecDepth 4000 in
/-- C2: the replay filter is never consulted by
`parseClientHandshake`.  A byte-identical replay of an accepted client
handshake is validated by a pure function of the message and the epoch
hour alone, so the replay is accepted again, even though the repository's
own `replayFilter.testAndSet` would have flagged the repeat; and two
epoch hours later the same message is rejected by the MAC check rather
than accepted. -/
theorem c2_replay_divergence :
    parseClientHandshakeValidation macToy msgReplayW 402775 = .ok () ∧
    (testAndSet (newReplayFilter 3 4) 1000 msgReplayW).1 = false ∧
    (testAndSet (testAndSet (newReplayFilter 3 4) 1000 msgReplayW).2 1000 msgReplayW).1 = true ∧
    parseClientHandshakeValidation macToy msgReplayW (402775 + 2) = .error .invalidHandshake := by
  refine ⟨by decide, by decide, by decide, by decide⟩

/-- C6: the client handshake message is exactly
`X ‖ P_c ‖ M_c ‖ MAC_c` with `M_c = HMAC(pk, X)`,
`MAC_c = HMAC(pk, X ‖ P_c ‖ M_c ‖ E)`, `E` the decimal ASCII string of
`floor(unix_seconds / 3600)`, and the padding length constants are the
claimed interval `[serverMinHandshakeLength - clientMinHandshakeLength,
MaximumSegmentLength - clientMinHandshakeLength]`. -/
theorem c6_client_handshake_form (mac : List Byte → List Byte) (X pad : List Byte)
    (unixSeconds : Nat)
    (hlo : clientMinPadLength ≤ pad.length) (hhi : pad.length ≤ clientMaxPadLength) :
    generateClientHandshake mac X pad ((getEpochHour unixSeconds : Nat) : Int) =
      X ++ pad ++ mac X ++
        mac (X ++ pad ++ mac X ++ epochStrBytes ((unixSeconds / 3600 : Nat) : Int)) ∧
    clientMinPadLength = serverMinHandshakeLength - clientMinHandshakeLength ∧
    clientMaxPadLength = MaximumSegmentLength - clientMinHandshakeLength ∧
    serverMinHandshakeLength - clientMinHandshakeLength ≤ pad.length ∧
    pad.length ≤ MaximumSegmentLength - clientMinHandshakeLength := by
  refine ⟨?_, rfl, rfl, hlo, hhi⟩
  simp only [generateClientHandshake, getEpochHour, List.append_assoc]

/-- Witness for `c6_client_handshake_form` at concrete inputs. -/
theorem c6_client_handshake_form_witness :
    generateClientHandshake macToy (List.replicate 32 2) (List.replicate 40 9)
        ((getEpochHour 1449997200 : Nat) : Int) =
      List.replicate 32 2 ++ List.replicate 40 9 ++ macToy (List.replicate 32 2) ++
        macToy (List.replicate 32 2 ++ List.replicate 40 9 ++ macToy (List.replicate 32 2) ++
          epochStrBytes ((1449997200 / 3600 : Nat) : Int)) ∧
    clientMinPadLength = serverMinHandshakeLength - clientMinHandshakeLength ∧
    clientMaxPadLength = MaximumSegmentLength - clientMinHandshakeLength ∧
    serverMinHandshakeLength - clientMinHandshakeLength ≤ (List.replicate 40 (9 : Nat)).length ∧
    (List.replicate 40 (9 : Nat)).length ≤ MaximumSegmentLength - clientMinHandshakeLength :=
  c6_client_handshake_form macToy (List.replicate 32 2) (List.replicate 40 9) 1449997200
    (by decide) (by decide)

/-- The parse of a well-formed generated message reduces to the epoch
MAC comparison: provided the mark is found exactly at the end of the
padding, validation succeeds precisely when one of the three epoch
candidates `E+0, E+(-1), E+1` reproduces the message's MAC. -/
theorem parse_generate_reduces (mac : List Byte → List Byte) (X pad : List Byte) (E H : Int)
    (hX : X.length = RepresentativeLength)
    (hm32 : ∀ m, (mac m).length = macLength)
    (hfind : findMark (mac X) (generateClientHandshake mac X pad H) RepresentativeLength
      serverMaxHandshakeLength = some (RepresentativeLength + pad.length)) :
    parseClientHandshakeValidation mac (generateClientHandshake mac X pad H) E =
      if mac (X ++ pad ++ mac X ++ epochStrBytes (E + 0)) =
            mac (X ++ pad ++ mac X ++ epochStrBytes H) ∨
          mac (X ++ pad ++ mac X ++ epochStrBytes (E + -1)) =
            mac (X ++ pad ++ mac X ++ epochStrBytes H) ∨
          mac (X ++ pad ++ mac X ++ epochStrBytes (E + 1)) =
            mac (X ++ pad ++ mac X ++ epochStrBytes H)
      then .ok () else .error .invalidHandshake := by
  have hXl : X.length = 32 := hX
  have hml : ∀ m, (mac m).length = 32 := hm32
  set C := mac X with hC
  set D := mac (X ++ pad ++ C ++ epochStrBytes H) with hD
  have hgen : generateClientHandshake mac X pad H = (X ++ (pad ++ C)) ++ D := by
    rw [hD, hC]
    simp only [generateClientHandshake, List.append_assoc]
  have hlenr : (generateClientHandshake mac X pad H).length = pad.length + 96 := by
    rw [hgen]
    simp only [List.length_append, hXl, hml, ← hC, ← hD]
    omega
  have hpfx : (X ++ (pad ++ C)).length = RepresentativeLength + pad.length + markLength := by
    simp only [List.length_append, hXl, hml, ← hC]
    rfl
  rw [parseClientHandshakeValidation]
  rw [if_neg (by rw [hlenr]; rw [show clientMinHandshakeLength = 96 from rfl]; omega)]
  have ht32 : (generateClientHandshake mac X pad H).take RepresentativeLength = X := by
    rw [hgen, List.append_assoc, ← hX]
    exact List.take_left X _
  rw [ht32]
  dsimp only
  rw [hC] at hfind
  rw [hfind]
  have htpfx : (generateClientHandshake mac X pad H).take
      (RepresentativeLength + pad.length + markLength) = X ++ (pad ++ C) := by
    rw [hgen, ← hpfx]
    exact List.take_left _ _
  have hdpfx : (generateClientHandshake mac X pad H).drop
      (RepresentativeLength + pad.length + markLength) = D := by
    rw [hgen, ← hpfx]
    exact List.drop_left _ _
  dsimp only
  rw [htpfx, hdpfx]
  have hDt : D.take macLength = D := by
    rw [show macLength = D.length from by rw [hD]; exact (hml _).symm]
    exact List.take_length D
  rw [hDt]
  have hrxlen : (generateClientHandshake mac X pad H).length =
      RepresentativeLength + pad.length + markLength + macLength := by
    rw [hlenr]
    simp only [show RepresentativeLength = 32 from rfl, show markLength = 32 from rfl,
      show macLength = 32 from rfl]
    omega
  have hcond : (¬([(0 : Int), -1, 1].any fun off =>
      decide (mac ((X ++ (pad ++ C)) ++ epochStrBytes (E + off)) = D)) = true) ↔
      ¬(mac (X ++ pad ++ C ++ epochStrBytes (E + 0)) = D ∨
        mac (X ++ pad ++ C ++ epochStrBytes (E + -1)) = D ∨
        mac (X ++ pad ++ C ++ epochStrBytes (E + 1)) = D) := by
    simp only [List.any_cons, List.any_nil, Bool.or_false, Bool.or_eq_true,
      decide_eq_true_eq, List.append_assoc]
  by_cases hP : mac (X ++ pad ++ C ++ epochStrBytes (E + 0)) = D ∨
      mac (X ++ pad ++ C ++ epochStrBytes (E + -1)) = D ∨
      mac (X ++ pad ++ C ++ epochStrBytes (E + 1)) = D
  · rw [if_neg (fun hn => hcond.mp hn hP)]
    rw [if_neg (by omega)]
    rw [if_pos hP]
  · rw [if_pos (hcond.mpr hP)]
    rw [if_neg hP]

/-- C5: a well-formed client handshake whose MAC was computed at epoch
hour `E-1` or `E+1` passes the server's validation at server hour `E`;
one computed at `E-2` or `E+2` is rejected (given that none of the three
recomputed MACs — offsets 0, -1, +1, the only offsets tried — collides
with the message's MAC).  Well-formedness: `X` is 32 bytes, `mac`
produces 32 bytes, and the mark is found exactly at the end of the
padding. -/
theorem c5_epoch_tolerance (mac : List Byte → List Byte) (X pad : List Byte) (E : Int)
    (hX : X.length = RepresentativeLength)
    (hm32 : ∀ m, (mac m).length = macLength)
    (hfind : ∀ δ ∈ ([(-1 : Int), 1, -2, 2] : List Int),
      findMark (mac X) (generateClientHandshake mac X pad (E + δ)) RepresentativeLength
        serverMaxHandshakeLength = some (RepresentativeLength + pad.length)) :
    parseClientHandshakeValidation mac (generateClientHandshake mac X pad (E + -1)) E =
      .ok () ∧
    parseClientHandshakeValidation mac (generateClientHandshake mac X pad (E + 1)) E =
      .ok () ∧
    (∀ δ ∈ ([(-2 : Int), 2] : List Int),
      (∀ off ∈ ([(0 : Int), -1, 1] : List Int),
        mac (X ++ pad ++ mac X ++ epochStrBytes (E + off)) ≠
          mac (X ++ pad ++ mac X ++ epochStrBytes (E + δ))) →
      parseClientHandshakeValidation mac (generateClientHandshake mac X pad (E + δ)) E =
        .error .invalidHandshake) := by
  refine ⟨?_, ?_, ?_⟩
  · rw [parse_generate_reduces mac X pad E (E + -1) hX hm32 (hfind _ (by simp))]
    rw [if_pos (.inr (.inl rfl))]
  · rw [parse_generate_reduces mac X pad E (E + 1) hX hm32 (hfind _ (by simp))]
    rw [if_pos (.inr (.inr rfl))]
  · intro δ hδ hne
    have hδ' : δ ∈ ([(-1 : Int), 1, -2, 2] : List Int) := by
      simp only [List.mem_cons, List.not_mem_nil, or_false] at hδ ⊢
      tauto
    rw [parse_generate_reduces mac X pad E (E + δ) hX hm32 (hfind _ hδ')]
    rw [if_neg]
    rintro (hh | hh | hh)
    · exact hne 0 (by simp) hh
    · exact hne (-1) (by simp) hh
    · exact hne 1 (by simp) hh

set_option maxRecDepth 8000 in
/-- Witness for `c5_epoch_tolerance` at a concrete toy HMAC: the `E+1`
message is accepted and the `E+2` message rejected. -/
theorem c5_epoch_tolerance_witness :
    parseClientHandshakeValidation macToy
      (generateClientHandshake macToy (List.replicate 32 2) (List.replicate 32 5)
        (402775 + 1)) 402775 = .ok () ∧
    parseClientHandshakeValidation macToy
      (generateClientHandshake macToy (List.replicate 32 2) (List.replicate 32 5)
        (402775 + 2)) 402775 = .error .invalidHandshake := by
  have h := c5_epoch_tolerance macToy (List.replicate 32 2) (List.replicate 32 5) 402775
    (by decide) (fun m => by simp [macToy, macLength])
    (by intro δ hδ
        simp only [List.mem_cons, List.not_mem_nil, or_false] at hδ
        rcases hδ with rfl | rfl | rfl | rfl <;> decide)
  exact ⟨h.2.1, h.2.2 2 (by simp)
    (by intro off hoff
        simp only [List.mem_cons, List.not_mem_nil, or_false] at hoff
        rcases hoff with rfl | rfl | rfl <;> decide)⟩

theorem sipInput_succ (seed : List Byte) (k : Nat) :
    sipInput seed (k + 1) = sipInput seed k ++ ofbAt seed k := by
  rw [sipInput, ofbAt]

/-- One `Int63` call advances the closed-form state by one block and
outputs the digest of the accumulated input, big-endian, masked. -/
theorem drbgInt63_stateAt (seed : List Byte) (k : Nat) :
    drbgInt63 (stateAt seed k) =
      (stateAt seed (k + 1),
        beDec (sipDigest (seed.take 16) (sipInput seed (k + 1))) % 2 ^ 63) := by
  cases k with
  | zero => simp [drbgInt63, stateAt, ofbAt, sipInput]
  | succ k => simp [drbgInt63, stateAt, ofbAt, sipInput]

theorem drbgStreamAux_succ (d : HashDrbg) (n : Nat) :
    drbgStreamAux d (n + 1) =
      ((drbgStreamAux (drbgInt63 d).1 n).1,
        (drbgInt63 d).2 :: (drbgStreamAux (drbgInt63 d).1 n).2) := rfl

/-- Outputs of the DRBG from the closed-form state at index `k`. -/
theorem drbgStreamAux_stateAt (seed : List Byte) (n k : Nat) :
    (drbgStreamAux (stateAt seed k) n).2 =
      (List.range n).map (fun i =>
        beDec (sipDigest (seed.take 16) (sipInput seed (k + i + 1))) % 2 ^ 63) := by
  induction n generalizing k with
  | zero => rfl
  | succ n ih =>
      rw [drbgStreamAux_succ, drbgInt63_stateAt]
      rw [ih (k + 1)]
      rw [List.range_succ_eq_map, List.map_cons, List.map_map]
      dsimp only
      refine congrArg₂ List.cons rfl ?_
      refine List.map_congr_left fun i _ => ?_
      simp only [Function.comp_apply]
      have h : k + 1 + i + 1 = k + Nat.succ i + 1 := by omega
      rw [h]

/-- C8, amended: the DRBG's SipHash key is `seed[0:16]` but the initial
OFB block is only the 8 bytes `seed[16:24]` (bytes 24–31 of the seed are
unused), and the SipHash input accumulates: the `(k+1)`-th `Int63` output
is the SipHash-2-4 digest of the concatenation of all previous OFB
blocks, interpreted big-endian and masked to 63 bits. -/
theorem c8_drbg_amended (seed s2 : List Byte) (n : Nat)
    (h24 : seed.take 24 = s2.take 24) :
    drbgStream seed n =
      (List.range n).map (fun k =>
        beDec (sipDigest (seed.take 16) (sipInput seed (k + 1))) % 2 ^ 63) ∧
    drbgStream seed n = drbgStream s2 n := by
  have hstate : newHashDrbg seed = stateAt seed 0 := by
    rw [newHashDrbg, stateAt, ofbAt, sipInput, if_pos rfl]
  constructor
  · rw [drbgStream, hstate, drbgStreamAux_stateAt]
    refine List.map_congr_left fun i _ => ?_
    have : 0 + i + 1 = i + 1 := by omega
    rw [this]
  · have h16 : seed.take 16 = s2.take 16 := by
      have a1 : (seed.take 24).take 16 = seed.take 16 := by
        simp [List.take_take]
      have a2 : (s2.take 24).take 16 = s2.take 16 := by
        simp [List.take_take]
      rw [← a1, ← a2, h24]
    have h8 : (seed.drop 16).take 8 = (s2.drop 16).take 8 := by
      have a1 : (seed.take 24).drop 16 = (seed.drop 16).take 8 := by
        rw [List.drop_take]
      have a2 : (s2.take 24).drop 16 = (s2.drop 16).take 8 := by
        rw [List.drop_take]
      rw [← a1, ← a2, h24]
    have : newHashDrbg seed = newHashDrbg s2 := by
      rw [newHashDrbg, newHashDrbg, h16, h8]
    rw [drbgStream, drbgStream, this]

/-- C8, counterexample to the claim as stated: with seed bytes
`0,1,…,31`, the very first `Int63` output differs from the output of the
claimed construction (16-byte OFB state `seed[16:32]`, pure OFB without
accumulation). -/
theorem c8_counterexample :
    drbgStream (List.range 32) 1 ≠ specDrbgStreamC8 (List.range 32) 1 := by decide

/-- Witness for `c8_drbg_amended`: two concrete seeds agreeing on their
first 24 bytes yield identical streams matching the closed form. -/
theorem c8_drbg_amended_witness :
    drbgStream (List.range 32) 2 =
      (List.range 2).map (fun k =>
        beDec (sipDigest ((List.range 32).take 16) (sipInput (List.range 32) (k + 1))) %
          2 ^ 63) ∧
    drbgStream (List.range 32) 2 = drbgStream (List.range 24 ++ List.replicate 8 7) 2 :=
  c8_drbg_amended (List.range 32) (List.range 24 ++ List.replicate 8 7) 2 (by decide)

theorem goInt31nAux_lt (k maxA : Nat) (hk : 0 < k) :
    ∀ (fuel : Nat) (d : HashDrbg), (goInt31nAux d k maxA fuel).2 < k := by
  intro fuel
  induction fuel with
  | zero => intro d; exact Nat.mod_lt _ hk
  | succ fuel ih =>
      intro d
      rw [goInt31nAux]
      split
      · exact ih _
      · exact Nat.mod_lt _ hk

theorem goIntn_lt (d : HashDrbg) (k : Nat) (hk : 0 < k) : (goIntn d k).2 < k :=
  goInt31nAux_lt k _ hk 64 d

theorem takeSetSucc {α : Type} (l : List α) (i : Nat) (x : α) (h : i < l.length) :
    (l.set i x).take (i + 1) = l.take i ++ [x] := by
  rw [List.set_eq_take_append_cons_drop, if_pos h]
  rw [List.take_append_eq_append_take]
  simp [List.length_take, Nat.le_of_lt h, Nat.min_eq_left (Nat.le_of_lt h)]

theorem takeSetComm {α : Type} (l : List α) (i j : Nat) (x : α) (h : j < i) :
    (l.set j x).take i = (l.take i).set j x := by
  induction l generalizing i j with
  | nil => simp
  | cons a t ih =>
      cases j with
      | zero =>
          cases i with
          | zero => omega
          | succ i => simp [List.set]
      | succ j =>
          cases i with
          | zero => omega
          | succ i =>
              simp only [List.set, List.take_succ_cons]
              rw [ih i j (by omega)]

theorem getDTake {α : Type} (l : List α) (i j : Nat) (d : α) (h : j < i) :
    (l.take i).getD j d = l.getD j d := by
  rw [List.getD_eq_getElem?_getD, List.getD_eq_getElem?_getD]
  rw [List.getElem?_take]
  simp [h]

/-- Setting index `j` and appending the displaced element is a
permutation of consing the new element: the multiset is unchanged. -/
theorem setAppendGetDPerm {α : Type} (l : List α) (j : Nat) (x d : α) (h : j < l.length) :
    List.Perm (l.set j x ++ [l.getD j d]) (x :: l) := by
  induction l generalizing j with
  | nil => simp at h
  | cons a t ih =>
      cases j with
      | zero =>
          simp only [List.set, List.getD_cons_zero, List.cons_append]
          exact (List.perm_append_singleton a t).cons x
      | succ j =>
          simp only [List.set, List.getD_cons_succ, List.cons_append]
          exact ((ih j (by simpa using h)).cons a).trans (List.Perm.swap x a t)

/-- Invariant of the inside-out shuffle: after `i` iterations the first
`i` slots hold a permutation of `0..i-1` and the rest are still zero. -/
theorem goPermAux_inv (n : Nat) (d : HashDrbg) :
    ∀ i, i ≤ n →
      ((List.range i).foldl goPermStep (d, List.replicate n 0)).2.length = n ∧
      List.Perm (((List.range i).foldl goPermStep (d, List.replicate n 0)).2.take i)
        (List.range i) ∧
      ((List.range i).foldl goPermStep (d, List.replicate n 0)).2.drop i =
        List.replicate (n - i) 0 := by
  intro i
  induction i with
  | zero => intro _; exact ⟨by simp, by simp, by simp⟩
  | succ i ih =>
      intro hin
      obtain ⟨hlen, hperm, hdrop⟩ := ih (by omega)
      have hfold : (List.range (i + 1)).foldl goPermStep (d, List.replicate n 0) =
          goPermStep ((List.range i).foldl goPermStep (d, List.replicate n 0)) i := by
        rw [List.range_succ, List.foldl_append, List.foldl_cons, List.foldl_nil]
      rw [hfold]
      set st := (List.range i).foldl goPermStep (d, List.replicate n 0) with hst
      set m := st.2 with hm
      set j := (goIntn st.1 (i + 1)).2 with hj
      have hjlt : j < i + 1 := goIntn_lt _ _ (by omega)
      have hi : i < n := by omega
      have hstep : (goPermStep st i).2 = (m.set i (m.getD j 0)).set j i := rfl
      rw [hstep]
      have hmlen : m.length = n := hlen
      refine ⟨by simp [hmlen], ?_, ?_⟩
      · by_cases hji : j = i
        · rw [hji, List.set_set]
          rw [takeSetSucc m i i (by omega)]
          rw [List.range_succ]
          exact (List.perm_append_singleton i _).trans
            ((hperm.cons i).trans (List.perm_append_singleton i _).symm)
        · have hjlt' : j < i := by omega
          rw [takeSetComm ((m.set i (m.getD j 0))) (i + 1) j i hjlt]
          rw [takeSetSucc m i _ (by omega)]
          rw [List.set_append_left _ _ (by simp [List.length_take]; omega)]
          have e4 : m.getD j 0 = (m.take i).getD j 0 := (getDTake m i j 0 hjlt').symm
          rw [e4]
          have hjl : j < (m.take i).length := by simp [List.length_take]; omega
          rw [List.range_succ]
          exact (setAppendGetDPerm _ j i 0 hjl).trans
            ((hperm.cons i).trans (List.perm_append_singleton i _).symm)
      · rw [List.drop_set_of_lt _ _ (by omega : j < i + 1)]
        rw [List.drop_set_of_lt _ _ (by omega : i < i + 1)]
        have d3 : m.drop (i + 1) = (m.drop i).drop 1 := by
          rw [List.drop_drop]
        rw [d3, hdrop]
        rw [show n - i = (n - i - 1) + 1 from by omega]
        simp [List.replicate_succ]
        omega

/-- `Rand.Perm n` produces a permutation of `0..n-1`. -/
theorem goPerm_perm (d : HashDrbg) (n : Nat) :
    List.Perm (goPerm d n).2 (List.range n) := by
  obtain ⟨hlen, hperm, _⟩ := goPermAux_inv n d n le_rfl
  rw [goPerm]
  set L := ((List.range n).foldl goPermStep (d, List.replicate n 0)).2 with hL
  have h2 : L.take n = L := by
    rw [← hlen]
    exact List.take_length L
  exact h2 ▸ hperm

/-- The bucket loop is the declarative probability recursion. -/
theorem bucketFold (n : Nat) : ∀ (d : HashDrbg) (t : ℚ) (acc : List ℚ),
    ((List.range n).foldl (fun st _ => bucketStep st) (d, t, acc)).2.2 =
      acc ++ bucketProbsAux t (bucketFloats d n) := by
  induction n with
  | zero => intro d t acc; simp [bucketProbsAux, bucketFloats]
  | succ n ih =>
      intro d t acc
      have hfold : (List.range (n + 1)).foldl (fun st _ => bucketStep st) (d, t, acc) =
          (List.range n).foldl (fun st _ => bucketStep st) (bucketStep (d, t, acc)) := by
        rw [List.range_succ_eq_map, List.foldl_cons, List.foldl_map]
      rw [hfold]
      rw [show bucketStep (d, t, acc) =
        ((goFloat64 d).1, t + (goFloat64 d).2 * (1 - t),
          acc ++ [(goFloat64 d).2 * (1 - t)]) from rfl]
      rw [ih]
      rw [show bucketFloats d (n + 1) =
        (goFloat64 d).2 :: bucketFloats (goFloat64 d).1 n from rfl]
      rw [bucketProbsAux]
      simp [List.append_assoc]

theorem bucketProbsAux_length (t : ℚ) (fs : List ℚ) :
    (bucketProbsAux t fs).length = fs.length := by
  induction fs generalizing t with
  | nil => rfl
  | cons f fs ih => rw [bucketProbsAux]; simp [ih]

theorem bucketFloats_length (d : HashDrbg) (n : Nat) : (bucketFloats d n).length = n := by
  induction n generalizing d with
  | zero => rfl
  | succ n ih => rw [bucketFloats]; simp [ih]

/-- C7, amended: for every seed the distribution is rebuilt
deterministically as (1) a DRBG-seeded random permutation of the bucket
indices (Go's inside-out shuffle), and (2) bucket probabilities
`p_i = rand() * (1 - Σ_{j<i} p_j)`, except that the last bucket is then
overwritten with the constant probability `1.0` (not `1 - Σ`). -/
theorem c7_wdist_amended (seed : List Byte) (minV maxV : Nat) (_h : minV < maxV) :
    (wDistReset seed minV maxV).values =
      (goPerm (newHashDrbg seed) (maxV + 1 - minV)).2 ∧
    List.Perm (wDistReset seed minV maxV).values (List.range (maxV + 1 - minV)) ∧
    (wDistReset seed minV maxV).buckets =
      (bucketProbsAux 0
          (bucketFloats ((goPerm (newHashDrbg seed) (maxV + 1 - minV)).1)
            (maxV + 1 - minV))).set (maxV + 1 - minV - 1) 1 := by
  refine ⟨rfl, goPerm_perm _ _, ?_⟩
  show (((List.range (maxV + 1 - minV)).foldl (fun st _ => bucketStep st)
      ((goPerm (newHashDrbg seed) (maxV + 1 - minV)).1, 0, [])).2.2).set
      ((((List.range (maxV + 1 - minV)).foldl (fun st _ => bucketStep st)
        ((goPerm (newHashDrbg seed) (maxV + 1 - minV)).1, 0, [])).2.2).length - 1) 1 = _
  rw [bucketFold]
  rw [List.nil_append]
  rw [bucketProbsAux_length, bucketFloats_length]

set_option maxRecDepth 8000 in
/-- C7, counterexample to the claim as stated: for the all-zero seed on
`[0, 1]`, the rebuilt buckets end in `1.0`, not `1 - Σ` of the earlier
bucket probabilities (the first probability is nonzero). -/
theorem c7_counterexample :
    wDistReset (List.replicate 32 0) 0 1 ≠ wDistResetClaimC7 (List.replicate 32 0) 0 1 := by
  have hbuck : (wDistReset (List.replicate 32 0) 0 1).buckets =
      [(goFloat64 ((goPerm (newHashDrbg (List.replicate 32 0)) 2).1)).2 * (1 - 0),
        (1 : ℚ)] := by
    show (((List.range 2).foldl (fun st _ => bucketStep st)
        ((goPerm (newHashDrbg (List.replicate 32 0)) 2).1, 0, [])).2.2).set _ 1 = _
    rw [bucketFold 2 _ 0 []]
    rw [List.nil_append]
    rfl
  have hbuck2 : (wDistResetClaimC7 (List.replicate 32 0) 0 1).buckets =
      [(goFloat64 ((goPerm (newHashDrbg (List.replicate 32 0)) 2).1)).2 * (1 - 0),
        1 - ((goFloat64 ((goPerm (newHashDrbg (List.replicate 32 0)) 2).1)).2 * (1 - 0) +
          0)] := by
    show (((List.range 2).foldl (fun st _ => bucketStep st)
        ((goPerm (newHashDrbg (List.replicate 32 0)) 2).1, 0, [])).2.2).set _
        (1 - _) = _
    rw [bucketFold 2 _ 0 []]
    rw [List.nil_append]
    rfl
  have hv : (drbgInt63 ((goPerm (newHashDrbg (List.replicate 32 0)) 2).1)).2 ≠ 0 := by
    decide
  have hq : (goFloat64 ((goPerm (newHashDrbg (List.replicate 32 0)) 2).1)).2 ≠ 0 := by
    rw [goFloat64]
    exact div_ne_zero (Nat.cast_ne_zero.mpr hv) (by positivity)
  intro heq
  have hb : (wDistReset (List.replicate 32 0) 0 1).buckets =
      (wDistResetClaimC7 (List.replicate 32 0) 0 1).buckets := by rw [heq]
  rw [hbuck, hbuck2] at hb
  have h1 : (1 : ℚ) =
      1 - ((goFloat64 ((goPerm (newHashDrbg (List.replicate 32 0)) 2).1)).2 * (1 - 0) + 0) := by
    have := List.cons.inj hb
    have := List.cons.inj this.2
    exact this.1
  apply hq
  have : (goFloat64 ((goPerm (newHashDrbg (List.replicate 32 0)) 2).1)).2 * (1 - 0) + 0 = 0 := by
    linarith
  calc (goFloat64 ((goPerm (newHashDrbg (List.replicate 32 0)) 2).1)).2
      = (goFloat64 ((goPerm (newHashDrbg (List.replicate 32 0)) 2).1)).2 * (1 - 0) + 0 := by
        ring
    _ = 0 := this

/-- Witness for `c7_wdist_amended` on the all-zero seed over `[0, 1]`. -/
theorem c7_wdist_amended_witness :
    (wDistReset (List.replicate 32 0) 0 1).values =
      (goPerm (newHashDrbg (List.replicate 32 0)) (1 + 1 - 0)).2 ∧
    List.Perm (wDistReset (List.replicate 32 0) 0 1).values (List.range (1 + 1 - 0)) ∧
    (wDistReset (List.replicate 32 0) 0 1).buckets =
      (bucketProbsAux 0
          (bucketFloats ((goPerm (newHashDrbg (List.replicate 32 0)) (1 + 1 - 0)).1)
            (1 + 1 - 0))).set (1 + 1 - 0 - 1) 1 :=
  c7_wdist_amended (List.replicate 32 0) 0 1 (by decide)

/-- One encode/decode round between synchronised peers: the frame
decodes to the original payload with any trailing bytes untouched, the
states stay synchronised, and both counters advance together. -/
theorem encode_decode_step (e : Encoder) (d : Decoder) (p rest : List Byte)
    (hs : Synced e d) (hp : p.length ≤ MaximumFramePayloadLength)
    (hc : e.nonce.counter ≠ 0) :
    ∃ e' d' frame,
      encode e p = .ok (e', frame) ∧
      decode d (frame ++ rest) = .frame d' rest p ∧
      Synced e' d' ∧
      e'.nonce.counter = (e.nonce.counter + 1) % 2 ^ 64 ∧
      d'.nonce.counter = e'.nonce.counter ∧
      frame.length = p.length + FrameOverhead := by
  obtain ⟨hk, hsk, hacc, hnn, hnl⟩ := hs
  set nb := e.nonce.pfx ++ be64enc e.nonce.counter with hnb
  set B := secretboxSeal e.key nb p with hB
  have hbl : B.length = p.length + 16 := length_secretboxSeal _ _ _
  have hM16 : beDec ((sipDigest e.sipKey (e.sipAcc ++ nb)).take 2) < 2 ^ 16 :=
    beDec_mask_lt _ _
  have hB16 : B.length < 2 ^ 16 := by
    rw [hbl]
    rw [MFPL_eq] at hp
    omega
  have hL16 : B.length ^^^ beDec ((sipDigest e.sipKey (e.sipAcc ++ nb)).take 2) < 2 ^ 16 :=
    Nat.xor_lt_two_pow hB16 hM16
  have hdbytes : d.nonce.bytes = .ok nb := by
    rw [hnn, BoxNonce.bytes, if_neg hc]
  have hdec : decode d
      ((be16enc (B.length ^^^ beDec ((sipDigest e.sipKey (e.sipAcc ++ nb)).take 2)) ++ B) ++
        rest) =
      .frame { d with nextNonce := nb, sipAcc := B, nextLength := 0,
                      nonce := { d.nonce with counter := (d.nonce.counter + 1) % 2 ^ 64 } }
        rest p := by
    rw [decode, if_pos hnl]
    rw [if_neg (by simp only [List.length_append, length_be16enc, lengthLength]; omega)]
    have ht2 : ((be16enc (B.length ^^^
          beDec ((sipDigest e.sipKey (e.sipAcc ++ nb)).take 2)) ++ B) ++ rest).take
            lengthLength =
        be16enc (B.length ^^^ beDec ((sipDigest e.sipKey (e.sipAcc ++ nb)).take 2)) := by
      rw [List.append_assoc]
      rw [show lengthLength = (be16enc (B.length ^^^
        beDec ((sipDigest e.sipKey (e.sipAcc ++ nb)).take 2))).length from
        (length_be16enc _).symm]
      exact List.take_left _ _
    have hd2 : ((be16enc (B.length ^^^
          beDec ((sipDigest e.sipKey (e.sipAcc ++ nb)).take 2)) ++ B) ++ rest).drop
            lengthLength = B ++ rest := by
      rw [List.append_assoc]
      rw [show lengthLength = (be16enc (B.length ^^^
        beDec ((sipDigest e.sipKey (e.sipAcc ++ nb)).take 2))).length from
        (length_be16enc _).symm]
      exact List.drop_left _ _
    rw [ht2, hd2, hdbytes]
    dsimp only
    rw [hsk, hacc]
    rw [beDec_be16enc _ hL16]
    rw [Nat.xor_cancel_right]
    rw [if_neg (by
      rw [show maxFrameLength = 1458 from rfl, show minFrameLength = 16 from rfl]
      rw [MFPL_eq] at hp
      omega)]
    rw [decodeBody]
    rw [if_neg (by simp only [List.length_append]; omega)]
    dsimp only
    rw [List.take_left, List.drop_left]
    rw [hk]
    rw [secretboxOpen_seal]
  refine ⟨_, _, _, encode_ok e p hp hc, hdec, ?_, rfl, ?_, ?_⟩
  · exact ⟨hk, hsk, rfl, by rw [hnn], rfl⟩
  · rw [hnn]
  · simp only [List.length_append, length_be16enc, hbl, FrameOverhead, lengthLength,
      secretboxOverhead]
    omega

/-- Sequential roundtrip of a payload list between synchronised peers. -/
theorem encodeAll_decodeAll (ps : List (List Byte)) : ∀ (e : Encoder) (d : Decoder),
    Synced e d → (∀ p ∈ ps, p.length ≤ MaximumFramePayloadLength) →
    0 < e.nonce.counter → e.nonce.counter < 2 ^ 64 →
    e.nonce.counter + ps.length ≤ 2 ^ 64 →
    ∃ e' fs d', encodeAll e ps = .ok (e', fs) ∧ decodeAll d fs = .ok (d', ps) ∧
      Synced e' d' ∧ d'.nonce.counter = e'.nonce.counter ∧
      e'.nonce.counter = (e.nonce.counter + ps.length) % 2 ^ 64 := by
  induction ps with
  | nil =>
      intro e d hs _ _ hclt _
      refine ⟨e, [], d, rfl, rfl, hs, ?_, ?_⟩
      · rw [hs.2.2.2.1]
      · simp only [List.length_nil, Nat.add_zero, Nat.mod_eq_of_lt hclt]
  | cons p ps ih =>
      intro e d hs hlenp hc hclt hb
      have hp : p.length ≤ MaximumFramePayloadLength := hlenp p (by simp)
      obtain ⟨e1, d1, f, henc, hdec, hs1, hcnt1, hdcnt1, _⟩ :=
        encode_decode_step e d p [] hs hp (by omega)
      rw [List.append_nil] at hdec
      cases ps with
      | nil =>
          refine ⟨e1, [f], d1, ?_, ?_, hs1, hdcnt1, ?_⟩
          · rw [encodeAll, henc]
            rfl
          · rw [decodeAll, hdec]
            rfl
          · rw [hcnt1]
            rfl
      | cons q qs =>
          have hklt : e.nonce.counter + 1 < 2 ^ 64 := by
            simp only [List.length_cons] at hb
            omega
          have h1 : e1.nonce.counter = e.nonce.counter + 1 := by
            rw [hcnt1, Nat.mod_eq_of_lt hklt]
          obtain ⟨e2, fs, d2, hencAll, hdecAll, hs2, hdc2, hcnt2⟩ :=
            ih e1 d1 hs1 (fun x hx => hlenp x (List.mem_cons_of_mem _ hx))
              (by omega) (by omega)
              (by rw [h1]; simp only [List.length_cons] at hb ⊢; omega)
          refine ⟨e2, f :: fs, d2, ?_, ?_, hs2, hdc2, ?_⟩
          · rw [encodeAll, henc]
            dsimp only
            rw [hencAll]
          · rw [decodeAll, hdec]
            dsimp only
            rw [if_pos rfl, hdecAll]
          · rw [hcnt2, h1]
            simp only [List.length_cons]
            congr 1
            omega

/-- C1: frames round-trip.  From an encoder and a decoder built from the
same 64 bytes of key material (both counters starting at 1), encoding any
sequence of payloads of at most `MaximumFramePayloadLength` bytes each and
feeding every resulting frame to the decoder returns exactly the original
payloads, and the two nonce counters are equal afterwards, having been
incremented once per frame.  Applying the theorem to every prefix of the
sequence gives the counter equality after each individual pair. -/
theorem c1_frame_roundtrip (km : List Byte) (ps : List (List Byte))
    (_hkm : km.length = KeyLength)
    (hps : ∀ p ∈ ps, p.length ≤ MaximumFramePayloadLength)
    (hn : ps.length ≤ 2 ^ 64 - 1) :
    (newEncoder km).nonce.counter = 1 ∧ (newDecoder km).nonce.counter = 1 ∧
    ∃ e' frames d',
      encodeAll (newEncoder km) ps = .ok (e', frames) ∧
      decodeAll (newDecoder km) frames = .ok (d', ps) ∧
      d'.nonce.counter = e'.nonce.counter ∧
      e'.nonce.counter = (1 + ps.length) % 2 ^ 64 := by
  have hs : Synced (newEncoder km) (newDecoder km) := ⟨rfl, rfl, rfl, rfl, rfl⟩
  obtain ⟨e', fs, d', h1, h2, _, h4, h5⟩ :=
    encodeAll_decodeAll ps (newEncoder km) (newDecoder km) hs hps
      (by rw [show (newEncoder km).nonce.counter = 1 from rfl]; omega)
      (by rw [show (newEncoder km).nonce.counter = 1 from rfl]; omega)
      (by rw [show (newEncoder km).nonce.counter = 1 from rfl]; omega)
  exact ⟨rfl, rfl, e', fs, d', h1, h2, h4, h5⟩

/-- Witness for `c1_frame_roundtrip` with three concrete payloads. -/
theorem c1_frame_roundtrip_witness :
    (newEncoder (List.range 64)).nonce.counter = 1 ∧
    (newDecoder (List.range 64)).nonce.counter = 1 ∧
    ∃ e' frames d',
      encodeAll (newEncoder (List.range 64)) [[1, 2, 3], [4, 5], []] = .ok (e', frames) ∧
      decodeAll (newDecoder (List.range 64)) frames = .ok (d', [[1, 2, 3], [4, 5], []]) ∧
      d'.nonce.counter = e'.nonce.counter ∧
      e'.nonce.counter = (1 + ([[1, 2, 3], [4, 5], []] : List (List Byte)).length) % 2 ^ 64 :=
  c1_frame_roundtrip (List.range 64) [[1, 2, 3], [4, 5], []] (by decide)
    (by decide) (by decide)

end Obfs4
